import Mathlib

/- Verification development for the identifier scheme and call-resolution
   engine of codewiki-go-analyzer.  The definitions below are a shallow
   embedding of the whole-repository analyzer (package `analyzer`,
   `GoAnalyzer` with `Analyze`, `getComponentIDForFile`, `collectNodes`,
   `collectCalls`, `visitTypeSpec`, `visitFuncDecl`,
   `visitFuncBodyForCalls`, `processCall`, `resolveCallWithTypes`,
   `isBuiltin`, `isTestFile`, `isPathInRepo`).

   Modelling conventions:
   * Go strings are lists of runes (`GoStr`); iterating a Go string with
     `range` iterates runes, which the embedding mirrors.  File contents
     (`[]byte` in Go) are lists of byte-valued characters and offsets are
     indices into that buffer.
   * `filepath.Rel(RepoAbs, path)`, `filepath.Clean` and `filepath.Abs`
     are Go standard-library path functions (external collaborators per
     the spec); the run environment carries `rel` and `clean` abstractly.
     The platform is Linux, so the path separator is the single byte 47
     and `os.IsPathSeparator(uint8(c))` tests the low byte of the rune.
   * `go/types` objects consulted through `typeInfo.Uses` and
     `typeInfo.Selections` are carried on the AST as facts
     (`UseFact`/`SelectionFact`); the analyzer reads them only when the
     file was loaded with type information (`hasTypes`).
   * Go's `map[string]bool` with only `true` values is modelled as a list
     of keys with membership lookup; `fileInfos` map iteration order is
     unspecified in Go and is modelled as insertion order (no property
     below depends on the order).
-/

namespace Codewiki

/-- Go strings modelled as lists of runes. -/
abbrev GoStr := List Char

/-- Build a `GoStr` from a Lean string literal. -/
def gs (s : String) : GoStr := s.toList

/-- os.IsPathSeparator(uint8(c)) on Linux: the separator byte is 47 and the
Go source truncates the rune to its low byte before the comparison. -/
def isSepByte (c : Char) : Bool := c.toNat % 256 == 47

/-- filepath.Ext: the suffix beginning at the final dot in the final
slash-separated element of the path; empty if there is no dot.  (The Go
code scans bytes; the bytes 46 and 47 occur only as the ASCII runes, so
the rune-level scan is equivalent.) -/
def goExt (p : GoStr) : GoStr :=
  let revSeg := p.reverse.takeWhile (fun c => !(c == '/'))
  if revSeg.any (fun c => c == '.') then
    ((revSeg.takeWhile (fun c => !(c == '.'))) ++ ['.']).reverse
  else []

/-- Environment of one `GoAnalyzer` run: the absolute repository root and
the standard-library path functions `filepath.Rel(RepoAbs, ·)` and
`filepath.Clean` it consults (external collaborators, kept abstract). -/
structure AnalyzerEnv where
  repoAbs : GoStr
  rel : GoStr → GoStr
  clean : GoStr → GoStr

/-- GoAnalyzer.getComponentIDForFile: module path of the file (relative
path, extension stripped, separator bytes replaced by dots) followed by
the optional receiver type and the symbol name. -/
def getComponentIDForFile (env : AnalyzerEnv) (filePath name receiverType : GoStr) : GoStr :=
  let relPath := env.rel filePath
  let ext := goExt relPath
  let pathNoExt := relPath.take (relPath.length - ext.length)
  let modulePath := pathNoExt.map (fun c => if isSepByte c then '.' else c)
  if receiverType ≠ [] then
    modulePath ++ '.' :: (receiverType ++ '.' :: name)
  else
    modulePath ++ '.' :: name

/-- GoAnalyzer.getComponentIDForPos, with the FileSet position already
resolved to the declaring file name (empty when the position is NoPos or
has no file). -/
def getComponentIDForPos (env : AnalyzerEnv) (declFile name receiverType : GoStr) : GoStr :=
  if declFile = [] then [] else getComponentIDForFile env declFile name receiverType

/-- isPathInRepo: both paths cleaned, then equality or prefix-plus-separator. -/
def isPathInRepo (env : AnalyzerEnv) (path : GoStr) : Bool :=
  let r := env.clean env.repoAbs
  let p := env.clean path
  if p = r then true else (r ++ ['/']).isPrefixOf p

/-- GoAnalyzer.isPosInRepo, with the position already resolved to a file
name (empty when the position is NoPos or has no file). -/
def isPosInRepo (env : AnalyzerEnv) (declFile : GoStr) : Bool :=
  if declFile = [] then false else isPathInRepo env declFile

/-- isTestFile: the path ends in "_test.go". -/
def isTestFile (path : GoStr) : Bool := (gs "_test.go").isSuffixOf path

/-- Go builtin functions (the builtinFuncs map). -/
def builtinFuncs : List GoStr :=
  [gs "append", gs "cap", gs "clear", gs "close", gs "complex",
   gs "copy", gs "delete", gs "imag", gs "len", gs "max", gs "min",
   gs "make", gs "new", gs "panic", gs "print", gs "println",
   gs "real", gs "recover"]

/-- Go builtin types (the builtinTypes map). -/
def builtinTypes : List GoStr :=
  [gs "bool", gs "byte", gs "complex64", gs "complex128",
   gs "error", gs "float32", gs "float64",
   gs "int", gs "int8", gs "int16", gs "int32", gs "int64",
   gs "rune", gs "string",
   gs "uint", gs "uint8", gs "uint16", gs "uint32", gs "uint64", gs "uintptr",
   gs "any", gs "comparable"]

/-- Go builtin constants (the builtinConsts map). -/
def builtinConsts : List GoStr :=
  [gs "true", gs "false", gs "nil", gs "iota"]

/-- isBuiltin: membership in any of the three builtin maps. -/
def isBuiltin (name : GoStr) : Bool :=
  builtinFuncs.contains name || builtinTypes.contains name || builtinConsts.contains name

/-- The receiver/parameter type expressions `typeToString` distinguishes. -/
inductive TypeExpr where
  | identT (name : GoStr)
  | star (x : TypeExpr)
  | selT (x : TypeExpr) (selName : GoStr)
  | indexT (x : TypeExpr) (idx : TypeExpr)
  | indexListT (x : TypeExpr) (indices : List TypeExpr)
  | otherT

mutual

/-- typeToString: renders an AST type expression; unknown forms render empty. -/
def typeToString : TypeExpr → GoStr
  | .identT n => n
  | .star x => '*' :: typeToString x
  | .selT x s => typeToString x ++ '.' :: s
  | .indexT x i => typeToString x ++ '[' :: (typeToString i ++ [']'])
  | .indexListT x idxs => typeToString x ++ '[' :: (typeIndicesString true idxs ++ [']'])
  | .otherT => []

/-- The comma-joined indices of a multi-parameter generic in typeToString. -/
def typeIndicesString : Bool → List TypeExpr → GoStr
  | _, [] => []
  | first, t :: ts =>
      (if first then [] else gs ", ") ++ typeToString t ++ typeIndicesString false ts

end

/-- The whitespace bytes stripped from line ends by go/ast comment rendering. -/
def isCommentWS (c : Char) : Bool := c == ' ' || c == '\t' || c == '\n' || c == '\r'

/-- go/ast stripTrailingWhitespace. -/
def stripTrailingWS (s : GoStr) : GoStr := (s.reverse.dropWhile isCommentWS).reverse

/-- strings.Split(s, newline): split keeping empty segments. -/
def splitLines (s : GoStr) : List GoStr :=
  match s with
  | [] => [[]]
  | c :: rest =>
      let r := splitLines rest
      if c = '\n' then [] :: r
      else
        match r with
        | h :: t => (c :: h) :: t
        | [] => [[c]]

/-- Lower-case letter or digit, as tested byte-wise by go/ast isDirective. -/
def isAlnumLC (c : Char) : Bool := ('a' ≤ c && c ≤ 'z') || ('0' ≤ c && c ≤ '9')

/-- go/ast isDirective on the comment text after the "//" marker. -/
def isDirective (c : GoStr) : Bool :=
  if (gs "line ").isPrefixOf c then true
  else
    let colon := c.findIdx (fun x => x == ':')
    if colon == 0 || colon + 1 ≥ c.length then false
    else (List.range (colon + 2)).all (fun i => i == colon || isAlnumLC (c.getD i ' '))

/-- The lines contributed by one comment in go/ast CommentGroup.Text:
markers removed, a single leading space of a line comment removed,
directives dropped, each line stripped of trailing whitespace. -/
def commentLines (c : GoStr) : List GoStr :=
  match c with
  | '/' :: '/' :: rest =>
      match rest with
      | [] => (splitLines []).map stripTrailingWS
      | ' ' :: r => (splitLines r).map stripTrailingWS
      | r => if isDirective r then [] else (splitLines r).map stripTrailingWS
  | '/' :: '*' :: rest => (splitLines (rest.take (rest.length - 2))).map stripTrailingWS
  | other => (splitLines other).map stripTrailingWS

/-- go/ast CommentGroup.Text blank-line normalization: leading blank lines
are dropped and runs of interior blank lines collapse to one. -/
def collapseBlankLines (ls : List GoStr) : List GoStr :=
  ls.foldl (fun acc l => if l ≠ [] ∨ acc.getLastD [] ≠ [] then acc ++ [l] else acc) []

/-- go/ast CommentGroup.Text over the texts of the comments in the group. -/
def commentGroupText (comments : List GoStr) : GoStr :=
  let lines := (comments.map commentLines).flatten
  let collapsed := collapseBlankLines lines
  let final := if collapsed.getLastD [] ≠ [] then collapsed ++ [[]] else collapsed
  List.intercalate (gs "\n") final

/-- An ast.CommentGroup: the comment texts and the group's source offset
(FileSet.Position(doc.Pos()).Offset). -/
structure CommentGroup where
  comments : List GoStr
  pos : Int
deriving DecidableEq, Repr

/-- Source extent of a declaration: offsets and lines of Pos() and End(). -/
structure Span where
  startOff : Int
  endOff : Int
  startLine : Int
  endLine : Int
deriving DecidableEq, Repr

/-- The shapes of a TypeSpec's type that visitTypeSpec distinguishes. -/
inductive TypeShape where
  | structType
  | interfaceType
  | otherType
deriving DecidableEq, Repr

/-- An ast.TypeSpec inside a GenDecl with token.TYPE. -/
structure TypeSpec where
  name : GoStr
  shape : TypeShape
  tsDoc : Option CommentGroup
  span : Span
deriving DecidableEq, Repr

/-- One receiver field: its type expression and declared names. -/
structure RecvField where
  fieldType : TypeExpr
  names : List GoStr

/-- One parameter field: its declared names. -/
structure ParamField where
  names : List GoStr
deriving DecidableEq, Repr

/-- What typeInfo.Uses records for an identifier use-site: a *types.Func
(with the declaring file resolved from its Pos, its name and its package
name), a *types.Builtin, a *types.PkgName, or anything else (including a
missing entry). -/
inductive UseFact where
  | funcUse (declFile name : GoStr) (pkg : Option GoStr)
  | builtinUse
  | pkgNameUse
  | otherUse
deriving DecidableEq, Repr

/-- What typeInfo.Selections records for a selector call: a *types.Func
with declaring file, name, receiverTypeString of its signature and the
qualified rendering of the selection's receiver type, or a non-function
object. -/
inductive SelectionFact where
  | funcSel (declFile name recvTypeStr recvQual : GoStr)
  | nonFuncSel
deriving DecidableEq, Repr

/-- The operand X of a selector expression X.Sel. -/
inductive SelX where
  | xIdent (name : GoStr) (use : UseFact)
  | xOther
deriving DecidableEq, Repr

/-- The call.Fun shapes processCall distinguishes: a bare identifier, a
selector, or anything else. -/
inductive CalleeExpr where
  | identFun (name : GoStr) (use : UseFact)
  | selectorFun (x : SelX) (selName : GoStr) (selection : Option SelectionFact) (selUse : UseFact)
  | otherFun
deriving DecidableEq, Repr

/-- An ast.CallExpr: its callee shape and the 1-based line of its Pos. -/
structure CallExpr where
  calleeFun : CalleeExpr
  line : Int
deriving DecidableEq, Repr

/-- An ast.FuncDecl: name, optional receiver field list, doc group,
parameter fields, optional body (as the call expressions ast.Inspect
visits in it, in traversal order) and source extent. -/
structure FuncDecl where
  name : GoStr
  recv : Option (List RecvField)
  fnDoc : Option CommentGroup
  params : List ParamField
  body : Option (List CallExpr)
  span : Span

/-- The declarations ast.Inspect dispatches on: a GenDecl with token.TYPE
(carrying its doc group and TypeSpecs) or a FuncDecl.  The list of these
per file is in traversal order; type declarations nested inside function
bodies appear as further genDeclType entries. -/
inductive Decl where
  | genDeclType (gdDoc : Option CommentGroup) (specs : List TypeSpec)
  | funcDecl (fd : FuncDecl)

/-- One parsed file as Analyze sees it after loading: the (absolute)
file name from the FileSet, the raw byte content from os.ReadFile, the
declarations, and whether type information was loaded for it. -/
structure RawFile where
  filename : GoStr
  content : GoStr
  decls : List Decl
  hasTypes : Bool

/-- models.Node (the fields the analyzer sets; Go zero values elsewhere). -/
structure Node where
  ID : GoStr
  Name : GoStr
  ComponentType : GoStr
  FilePath : GoStr
  RelativePath : GoStr
  DependsOn : List GoStr
  SourceCode : GoStr
  StartLine : Int
  EndLine : Int
  HasDocstring : Bool
  Docstring : GoStr
  Parameters : List GoStr
  NodeType : GoStr
  BaseClasses : List GoStr
  ClassName : GoStr
  DisplayName : GoStr
  ComponentID : GoStr
deriving DecidableEq, Repr

/-- models.CallRelationship. -/
structure CallRelationship where
  Caller : GoStr
  Callee : GoStr
  CallLine : Int
  IsResolved : Bool
  RelationshipType : GoStr
deriving DecidableEq, Repr

/-- The mutable output state of a GoAnalyzer run. -/
structure AnalyzerState where
  Nodes : List Node
  Relationships : List CallRelationship
  CollectedNodeIDs : List GoStr
deriving DecidableEq, Repr

/-- The initial analyzer state built by NewGoAnalyzer. -/
def initState : AnalyzerState := ⟨[], [], []⟩

/-- The guarded source-span extraction shared by visitTypeSpec and
visitFuncDecl: string(content[startOffset:endOffset]) when the offsets
are in bounds, the empty string otherwise. -/
def extractSpan (content : GoStr) (startOff endOff : Int) : GoStr :=
  if 0 ≤ startOff ∧ endOff ≤ (content.length : Int) ∧ startOff ≤ endOff then
    (content.take endOff.toNat).drop startOff.toNat
  else []

/-- The effective doc group of a TypeSpec: ts.Doc, else the GenDecl's doc. -/
def effectiveDoc (tsDoc genDeclDoc : Option CommentGroup) : Option CommentGroup :=
  match tsDoc with
  | some d => some d
  | none => genDeclDoc

/-- GoAnalyzer.visitTypeSpec. -/
def visitTypeSpec (env : AnalyzerEnv) (st : AnalyzerState) (ts : TypeSpec)
    (genDeclDoc : Option CommentGroup) (filePath content : GoStr) : AnalyzerState :=
  if ts.shape = .otherType then st
  else
    let nodeType := if ts.shape = .interfaceType then gs "interface" else gs "struct"
    let relativePath := env.rel filePath
    let componentID := getComponentIDForFile env filePath ts.name []
    let doc := effectiveDoc ts.tsDoc genDeclDoc
    let startOffset := match doc with | some d => d.pos | none => ts.span.startOff
    let sourceCode := extractSpan content startOffset ts.span.endOff
    let node : Node :=
      { ID := componentID
        Name := ts.name
        ComponentType := gs "class"
        FilePath := filePath
        RelativePath := relativePath
        DependsOn := []
        SourceCode := sourceCode
        StartLine := ts.span.startLine
        EndLine := ts.span.endLine
        HasDocstring := doc.isSome
        Docstring := match doc with | some d => commentGroupText d.comments | none => []
        Parameters := []
        NodeType := nodeType
        BaseClasses := []
        ClassName := []
        DisplayName := nodeType ++ ' ' :: ts.name
        ComponentID := componentID }
    { st with
        CollectedNodeIDs := componentID :: st.CollectedNodeIDs
        Nodes := st.Nodes ++ [node] }

/-- The receiver type name of a receiver field list: typeToString of each
field's type with a leading star stripped, last field winning. -/
def recvTypeOf (fields : List RecvField) : GoStr :=
  fields.foldl
    (fun _acc field =>
      match typeToString field.fieldType with
      | '*' :: rest => rest
      | s => s) []

/-- The receiver parameter name: the first name of each named receiver
field, last named field winning, empty when no field is named. -/
def recvNameOf (fields : List RecvField) : GoStr :=
  fields.foldl (fun acc field => match field.names with | n :: _ => n | [] => acc) []

/-- The component id a function declaration receives (also the callerID
visitFuncBodyForCalls computes by the same receiver unwrapping). -/
def funcComponentID (env : AnalyzerEnv) (fd : FuncDecl) (filePath : GoStr) : GoStr :=
  match fd.recv with
  | some fields => getComponentIDForFile env filePath fd.name (recvTypeOf fields)
  | none => getComponentIDForFile env filePath fd.name []

/-- GoAnalyzer.visitFuncDecl. -/
def visitFuncDecl (env : AnalyzerEnv) (st : AnalyzerState) (fd : FuncDecl)
    (filePath content : GoStr) : AnalyzerState :=
  let relativePath := env.rel filePath
  let className := match fd.recv with | some fields => recvTypeOf fields | none => []
  let componentID := funcComponentID env fd filePath
  let displayName :=
    match fd.recv with
    | some fields => gs "method " ++ recvTypeOf fields ++ '.' :: fd.name
    | none => gs "func " ++ fd.name
  let componentType := if fd.recv.isSome then gs "method" else gs "function"
  let startOffset := match fd.fnDoc with | some d => d.pos | none => fd.span.startOff
  let sourceCode := extractSpan content startOffset fd.span.endOff
  let params := fd.params.foldl (fun acc p => acc ++ p.names) []
  let node : Node :=
    { ID := componentID
      Name := fd.name
      ComponentType := componentType
      FilePath := filePath
      RelativePath := relativePath
      DependsOn := []
      SourceCode := sourceCode
      StartLine := fd.span.startLine
      EndLine := fd.span.endLine
      HasDocstring := fd.fnDoc.isSome
      Docstring := match fd.fnDoc with | some d => commentGroupText d.comments | none => []
      Parameters := params
      NodeType := componentType
      BaseClasses := []
      ClassName := className
      DisplayName := displayName
      ComponentID := componentID }
  { st with
      CollectedNodeIDs := componentID :: st.CollectedNodeIDs
      Nodes := st.Nodes ++ [node] }

/-- GoAnalyzer.collectNodes: ast.Inspect dispatching GenDecl(TYPE) specs
to visitTypeSpec and FuncDecls to visitFuncDecl. -/
def collectNodes (env : AnalyzerEnv) (st : AnalyzerState) (f : RawFile) : AnalyzerState :=
  f.decls.foldl
    (fun st d =>
      match d with
      | .genDeclType gdDoc specs =>
          specs.foldl (fun st ts => visitTypeSpec env st ts gdDoc f.filename f.content) st
      | .funcDecl fd => visitFuncDecl env st fd f.filename f.content) st

/-- GoAnalyzer.resolveCallWithTypes, reading the collected-id set for the
membership tests; `none` models an ok=false return (unclassified call). -/
def resolveCallWithTypes (env : AnalyzerEnv) (ids : List GoStr) (call : CallExpr) :
    Option (GoStr × Bool) :=
  match call.calleeFun with
  | .identFun name use =>
      match use with
      | .funcUse declFile fname pkg =>
          let calleeName := getComponentIDForPos env declFile fname []
          if calleeName ≠ [] ∧ isPosInRepo env declFile then
            some (calleeName, decide (calleeName ∈ ids))
          else
            match pkg with
            | some p => some (p ++ '.' :: fname, false)
            | none => some (fname, false)
      | .builtinUse => some (name, false)
      | _ => none
  | .selectorFun x _selName selection selUse =>
      match selection with
      | some (.funcSel declFile fname recvTypeStr recvQual) =>
          let calleeName := getComponentIDForPos env declFile fname recvTypeStr
          if calleeName ≠ [] ∧ isPosInRepo env declFile then
            some (calleeName, decide (calleeName ∈ ids))
          else
            some (recvQual ++ '.' :: fname, false)
      | some .nonFuncSel => none
      | none =>
          match x with
          | .xIdent xname xuse =>
              match xuse with
              | .pkgNameUse =>
                  match selUse with
                  | .funcUse declFile fname _pkg =>
                      let calleeName := getComponentIDForPos env declFile fname []
                      if calleeName ≠ [] ∧ isPosInRepo env declFile then
                        some (calleeName, decide (calleeName ∈ ids))
                      else
                        some (xname ++ '.' :: fname, false)
                  | _ => none
              | _ => none
          | .xOther => none
  | .otherFun => none

/-- The callee name the heuristic fallback of processCall computes
(empty when the call shape is not classified). -/
def heuristicCallee (env : AnalyzerEnv) (recvName recvType : GoStr) (call : CallExpr)
    (filePath : GoStr) : GoStr :=
  match call.calleeFun with
  | .identFun name _ =>
      if isBuiltin name then name else getComponentIDForFile env filePath name []
  | .selectorFun x selName _ _ =>
      match x with
      | .xIdent xname _ =>
          if recvName ≠ [] ∧ recvType ≠ [] ∧ xname = recvName then
            getComponentIDForFile env filePath selName recvType
          else xname ++ '.' :: selName
      | .xOther => []
  | .otherFun => []

/-- The heuristic tail of GoAnalyzer.processCall: emit one relationship
with IsResolved looked up in CollectedNodeIDs, or nothing. -/
def processCallHeuristic (env : AnalyzerEnv) (st : AnalyzerState)
    (callerID recvName recvType : GoStr) (call : CallExpr) (filePath : GoStr) :
    AnalyzerState :=
  let calleeName := heuristicCallee env recvName recvType call filePath
  if calleeName ≠ [] then
    { st with Relationships := st.Relationships ++
        [⟨callerID, calleeName, call.line, decide (calleeName ∈ st.CollectedNodeIDs), gs "calls"⟩] }
  else st

/-- GoAnalyzer.processCall: the type-informed path when type facts are
present and classify the call, the heuristic tail otherwise. -/
def processCall (env : AnalyzerEnv) (st : AnalyzerState)
    (callerID recvName recvType : GoStr) (call : CallExpr) (hasTypes : Bool)
    (filePath : GoStr) : AnalyzerState :=
  if hasTypes then
    match resolveCallWithTypes env st.CollectedNodeIDs call with
    | some (calleeName, resolved) =>
        if calleeName ≠ [] then
          { st with Relationships := st.Relationships ++
              [⟨callerID, calleeName, call.line, resolved, gs "calls"⟩] }
        else st
    | none => processCallHeuristic env st callerID recvName recvType call filePath
  else processCallHeuristic env st callerID recvName recvType call filePath

/-- The receiver parameter name of a declaration (empty for free functions). -/
def funcRecvName (fd : FuncDecl) : GoStr :=
  match fd.recv with | some fields => recvNameOf fields | none => []

/-- The receiver type name of a declaration (empty for free functions). -/
def funcRecvType (fd : FuncDecl) : GoStr :=
  match fd.recv with | some fields => recvTypeOf fields | none => []

/-- GoAnalyzer.visitFuncBodyForCalls. -/
def visitFuncBodyForCalls (env : AnalyzerEnv) (st : AnalyzerState) (fd : FuncDecl)
    (filePath : GoStr) (hasTypes : Bool) : AnalyzerState :=
  match fd.body with
  | none => st
  | some calls =>
      let callerID := funcComponentID env fd filePath
      calls.foldl
        (fun st c =>
          processCall env st callerID (funcRecvName fd) (funcRecvType fd) c hasTypes filePath)
        st

/-- GoAnalyzer.collectCalls: ast.Inspect dispatching FuncDecls to
visitFuncBodyForCalls. -/
def collectCalls (env : AnalyzerEnv) (st : AnalyzerState) (f : RawFile) : AnalyzerState :=
  f.decls.foldl
    (fun st d =>
      match d with
      | .funcDecl fd => visitFuncBodyForCalls env st fd f.filename f.hasTypes
      | _ => st) st

/-- The fileInfos construction loop of Analyze over the loaded files:
skip empty names and test files, skip files outside the repository,
skip already-seen names (the map insertion check). -/
def buildFileInfos (env : AnalyzerEnv) (raw : List RawFile) : List RawFile :=
  raw.foldl
    (fun acc f =>
      if f.filename = [] ∨ isTestFile f.filename then acc
      else if ¬ isPathInRepo env f.filename then acc
      else if acc.any (fun g => g.filename == f.filename) then acc
      else acc ++ [f]) []

/-- GoAnalyzer.Analyze: build fileInfos, run the node-collection pass over
every file, then the call-resolution pass over every file. -/
def Analyze (env : AnalyzerEnv) (raw : List RawFile) : AnalyzerState :=
  let files := buildFileInfos env raw
  let st := files.foldl (fun st f => collectNodes env st f) initState
  files.foldl (fun st f => collectCalls env st f) st

/-! Derived characterizations used to reason about the passes. -/

/-- The relationships the heuristic tail of processCall appends (zero or
one), as a function of the collected-id set it reads. -/
def perCallHeuristicRels (env : AnalyzerEnv) (ids : List GoStr)
    (callerID recvName recvType : GoStr) (call : CallExpr) (filePath : GoStr) :
    List CallRelationship :=
  let calleeName := heuristicCallee env recvName recvType call filePath
  if calleeName ≠ [] then
    [⟨callerID, calleeName, call.line, decide (calleeName ∈ ids), gs "calls"⟩]
  else []

/-- The relationships processCall appends for one call expression. -/
def perCallRels (env : AnalyzerEnv) (ids : List GoStr)
    (callerID recvName recvType : GoStr) (call : CallExpr) (hasTypes : Bool)
    (filePath : GoStr) : List CallRelationship :=
  if hasTypes then
    match resolveCallWithTypes env ids call with
    | some (calleeName, resolved) =>
        if calleeName ≠ [] then [⟨callerID, calleeName, call.line, resolved, gs "calls"⟩]
        else []
    | none => perCallHeuristicRels env ids callerID recvName recvType call filePath
  else perCallHeuristicRels env ids callerID recvName recvType call filePath

/-- The relationships the resolution pass emits for one declaration. -/
def declCallRels (env : AnalyzerEnv) (ids : List GoStr) (filename : GoStr)
    (hasTypes : Bool) : Decl → List CallRelationship
  | .funcDecl fd =>
      match fd.body with
      | none => []
      | some calls =>
          calls.flatMap (fun c =>
            perCallRels env ids (funcComponentID env fd filename)
              (funcRecvName fd) (funcRecvType fd) c hasTypes filename)
  | _ => []

/-- The relationships the resolution pass emits for one file. -/
def fileCallRels (env : AnalyzerEnv) (ids : List GoStr) (f : RawFile) :
    List CallRelationship :=
  f.decls.flatMap (declCallRels env ids f.filename f.hasTypes)

/-- The component ids the collection pass registers for one file. -/
def declaredIDs (env : AnalyzerEnv) (f : RawFile) : List GoStr :=
  f.decls.flatMap (fun d =>
    match d with
    | .genDeclType _ specs =>
        specs.filterMap (fun ts =>
          if ts.shape = .otherType then none
          else some (getComponentIDForFile env f.filename ts.name []))
    | .funcDecl fd => [funcComponentID env fd f.filename])

/-- Whether the type facts carried by a call expression place its callee
outside the analyzed repository (or make it a builtin): the declaring
position of the used function object does not resolve to a file inside
the repository.  This is the ground truth the type-informed path
consults; the heuristic path never sees it. -/
def calleeFactsExternalOrBuiltin (env : AnalyzerEnv) (c : CallExpr) : Bool :=
  match c.calleeFun with
  | .identFun _ u =>
      match u with
      | .funcUse declFile _ _ => !(isPosInRepo env declFile)
      | .builtinUse => true
      | _ => false
  | .selectorFun x _ selection selUse =>
      match selection with
      | some (.funcSel declFile _ _ _) => !(isPosInRepo env declFile)
      | some .nonFuncSel => false
      | none =>
          match x, selUse with
          | .xIdent _ .pkgNameUse, .funcUse declFile _ _ => !(isPosInRepo env declFile)
          | _, _ => false
  | .otherFun => false

/-! A second identifier definition written from the words of spec
section 4.1, used to compare the implementation against the specified
scheme. -/

/-- Written from the spec's words: the relative path with its extension
stripped and every path separator (the slash character, on this
platform) replaced by a dot. -/
def specModulePath (relPath : GoStr) : GoStr :=
  (relPath.take (relPath.length - (goExt relPath).length)).map
    (fun c => if c = '/' then '.' else c)

/-- Written from the spec's words: modulePath.enclosingTypeName.symbolName
when the enclosing type name is non-empty, modulePath.symbolName
otherwise. -/
def identifierForSpec (env : AnalyzerEnv) (filePath symbolName enclosingTypeName : GoStr) :
    GoStr :=
  let m := specModulePath (env.rel filePath)
  if enclosingTypeName ≠ [] then m ++ '.' :: (enclosingTypeName ++ '.' :: symbolName)
  else m ++ '.' :: symbolName

/-! Concrete run inputs used to evaluate the development on closed
instances: a repository rooted at "/r" whose relative paths drop the
leading "/r/". -/

/-- A concrete run environment: repository root "/r", relative paths
obtained by dropping the three leading characters, paths already clean. -/
def envW : AnalyzerEnv := ⟨gs "/r", fun p => p.drop 3, fun p => p⟩

/-- A degenerate environment whose relative paths are the paths themselves. -/
def envId : AnalyzerEnv := ⟨gs "/r", fun p => p, fun p => p⟩

/-- A placeholder source extent for declarations whose spans are unused. -/
def spanZ : Span := ⟨0, 0, 1, 1⟩

/-- Concrete declaration: method d on receiver type c (as in file a/b.go). -/
def fdMethCD : FuncDecl := ⟨gs "d", some [⟨.identT (gs "c"), [gs "x"]⟩], none, [], none, spanZ⟩

/-- Concrete declaration: free function d (as in file a/b/c.go). -/
def fdFreeD : FuncDecl := ⟨gs "d", none, none, [], none, spanZ⟩

/-- Concrete input whose two distinct declarations receive the same id. -/
def rawC9 : List RawFile :=
  [⟨gs "/r/a/b.go", [], [.funcDecl fdMethCD], false⟩,
   ⟨gs "/r/a/b/c.go", [], [.funcDecl fdFreeD], false⟩]

/-- Concrete declaration: free function Println (in file fmt.go). -/
def fdPrintln : FuncDecl := ⟨gs "Println", none, none, [], none, spanZ⟩

/-- A call to a function named Println declared in the external file
/x/p.go of package fmt, as the type facts record it. -/
def callExtPrintln : CallExpr :=
  ⟨.identFun (gs "Println") (.funcUse (gs "/x/p.go") (gs "Println") (some (gs "fmt"))), 5⟩

/-- Concrete declaration: free function g whose body calls the external
Println, analyzed with type facts. -/
def fdGTyped : FuncDecl := ⟨gs "g", none, none, [], some [callExtPrintln], spanZ⟩

/-- Concrete input where the package-qualified name of an external callee
collides with a collected identifier. -/
def rawColl : List RawFile :=
  [⟨gs "/r/fmt.go", [], [.funcDecl fdPrintln], false⟩,
   ⟨gs "/r/a.go", [], [.funcDecl fdGTyped], true⟩]

/-- A selector call fmt.Println whose type facts mark the callee external,
as the heuristic path sees it in a file without type facts. -/
def callSelPrintln : CallExpr :=
  ⟨.selectorFun (.xIdent (gs "fmt") .pkgNameUse) (gs "Println") none
    (.funcUse (gs "/x/p.go") (gs "Println") (some (gs "fmt"))), 3⟩

/-- Concrete declaration: free function g whose body makes the selector
call, analyzed without type facts. -/
def fdGPlain : FuncDecl := ⟨gs "g", none, none, [], some [callSelPrintln], spanZ⟩

/-- Concrete input where the heuristic path marks a call to an external
symbol as resolved because its verbatim name collides with a collected id. -/
def rawHeur : List RawFile :=
  [⟨gs "/r/fmt.go", [], [.funcDecl fdPrintln], false⟩,
   ⟨gs "/r/a.go", [], [.funcDecl fdGPlain], false⟩]

/-- Concrete type declaration D with a one-line doc comment on its GenDecl. -/
def tsD : TypeSpec := ⟨gs "D", .structType, none, ⟨10, 25, 2, 2⟩⟩

/-- Concrete input: one file whose type declaration is immediately
preceded by the single-line comment at offset 0. -/
def rawDoc : List RawFile :=
  [⟨gs "/r/t.go", gs "// D is d\ntype D struct{}",
    [.genDeclType (some ⟨[gs "// D is d"], 0⟩) [tsD]], false⟩]

/-- A bare-identifier call to Callee with no usable type facts. -/
def callLocalCallee : CallExpr := ⟨.identFun (gs "Callee") .otherUse, 4⟩

/-- Concrete declaration: free function Caller whose body calls Callee. -/
def fdCaller : FuncDecl := ⟨gs "Caller", none, none, [], some [callLocalCallee], spanZ⟩

/-- Concrete declaration: free function Callee with an empty body. -/
def fdCallee : FuncDecl := ⟨gs "Callee", none, none, [], some [], spanZ⟩

/-- Concrete input: Caller and Callee in the same file, no type facts. -/
def rawLocal : List RawFile :=
  [⟨gs "/r/calls.go", [], [.funcDecl fdCaller, .funcDecl fdCallee], false⟩]

/-- Concrete input containing a test file next to a regular file. -/
def rawTests : List RawFile :=
  [⟨gs "/r/a_test.go", [], [.funcDecl fdCallee], false⟩,
   ⟨gs "/r/b.go", [], [.funcDecl fdFreeD], false⟩]

/-- A bare call to the builtin len, with no usable type facts. -/
def callLen : CallExpr := ⟨.identFun (gs "len") .otherUse, 9⟩

/-- Concrete method declaration: method A on receiver t of type T whose
body calls t.B and u.C. -/
def fdMethA : FuncDecl :=
  ⟨gs "A", some [⟨.star (.identT (gs "T")), [gs "t"]⟩], none, [],
    some [⟨.selectorFun (.xIdent (gs "t") .otherUse) (gs "B") none .otherUse, 6⟩,
          ⟨.selectorFun (.xIdent (gs "u") .otherUse) (gs "C") none .otherUse, 7⟩], spanZ⟩

/-- Concrete method declaration: method B on receiver t of type T. -/
def fdMethB : FuncDecl :=
  ⟨gs "B", some [⟨.star (.identT (gs "T")), [gs "t"]⟩], none, [], some [], spanZ⟩

/-- Concrete input: methods A and B on the same type in one file. -/
def rawMeth : List RawFile :=
  [⟨gs "/r/m.go", [], [.funcDecl fdMethA, .funcDecl fdMethB], false⟩]


/-! Structural lemmas about the passes. -/

theorem processCallHeuristic_eq (env : AnalyzerEnv) (st : AnalyzerState)
    (cid rn rt : GoStr) (c : CallExpr) (fp : GoStr) :
    processCallHeuristic env st cid rn rt c fp =
      { st with Relationships := st.Relationships ++
          perCallHeuristicRels env st.CollectedNodeIDs cid rn rt c fp } := by
  simp only [processCallHeuristic, perCallHeuristicRels]
  split
  · rfl
  · simp

theorem processCall_eq (env : AnalyzerEnv) (st : AnalyzerState)
    (cid rn rt : GoStr) (c : CallExpr) (ht : Bool) (fp : GoStr) :
    processCall env st cid rn rt c ht fp =
      { st with Relationships := st.Relationships ++
          perCallRels env st.CollectedNodeIDs cid rn rt c ht fp } := by
  simp only [processCall, perCallRels]
  cases ht with
  | false => simpa using processCallHeuristic_eq env st cid rn rt c fp
  | true =>
      cases h : resolveCallWithTypes env st.CollectedNodeIDs c with
      | none => simpa using processCallHeuristic_eq env st cid rn rt c fp
      | some pr =>
          obtain ⟨name, res⟩ := pr
          by_cases hn : name ≠ [] <;> simp [hn]

theorem foldl_processCall_eq (env : AnalyzerEnv) (cid rn rt : GoStr) (ht : Bool)
    (fp : GoStr) (calls : List CallExpr) (st : AnalyzerState) :
    calls.foldl (fun st c => processCall env st cid rn rt c ht fp) st =
      { st with Relationships := st.Relationships ++
          calls.flatMap (fun c => perCallRels env st.CollectedNodeIDs cid rn rt c ht fp) } := by
  induction calls generalizing st with
  | nil => simp
  | cons c cs ih =>
      simp only [List.foldl_cons, List.flatMap_cons]
      rw [processCall_eq, ih]
      simp [List.append_assoc]

theorem visitFuncBodyForCalls_eq (env : AnalyzerEnv) (st : AnalyzerState)
    (fd : FuncDecl) (fp : GoStr) (ht : Bool) :
    visitFuncBodyForCalls env st fd fp ht =
      { st with Relationships := st.Relationships ++
          declCallRels env st.CollectedNodeIDs fp ht (.funcDecl fd) } := by
  simp only [visitFuncBodyForCalls, declCallRels]
  cases fd.body with
  | none => simp
  | some calls => exact foldl_processCall_eq env _ _ _ ht fp calls st

theorem collectCalls_eq (env : AnalyzerEnv) (st : AnalyzerState) (f : RawFile) :
    collectCalls env st f =
      { st with Relationships := st.Relationships ++
          fileCallRels env st.CollectedNodeIDs f } := by
  simp only [collectCalls, fileCallRels]
  generalize f.decls = ds
  induction ds generalizing st with
  | nil => simp
  | cons d ds ih =>
      simp only [List.foldl_cons, List.flatMap_cons]
      cases d with
      | funcDecl fd =>
          dsimp only
          rw [visitFuncBodyForCalls_eq, ih]
          simp [List.append_assoc]
      | genDeclType gd specs =>
          dsimp only
          rw [ih]
          simp [declCallRels]

theorem pass2_eq (env : AnalyzerEnv) (files : List RawFile) (st : AnalyzerState) :
    files.foldl (fun st f => collectCalls env st f) st =
      { st with Relationships := st.Relationships ++
          files.flatMap (fileCallRels env st.CollectedNodeIDs) } := by
  induction files generalizing st with
  | nil => simp
  | cons f fs ih =>
      simp only [List.foldl_cons, List.flatMap_cons]
      rw [collectCalls_eq, ih]
      simp [List.append_assoc]

/-! Structural lemmas about the collection pass. -/

theorem visitTypeSpec_relationships (env : AnalyzerEnv) (st : AnalyzerState) (ts : TypeSpec)
    (gd : Option CommentGroup) (fp ct : GoStr) :
    (visitTypeSpec env st ts gd fp ct).Relationships = st.Relationships := by
  simp only [visitTypeSpec]
  split <;> rfl

theorem visitFuncDecl_relationships (env : AnalyzerEnv) (st : AnalyzerState) (fd : FuncDecl)
    (fp ct : GoStr) :
    (visitFuncDecl env st fd fp ct).Relationships = st.Relationships := rfl

theorem collectNodes_relationships (env : AnalyzerEnv) (st : AnalyzerState) (f : RawFile) :
    (collectNodes env st f).Relationships = st.Relationships := by
  simp only [collectNodes]
  induction f.decls generalizing st with
  | nil => rfl
  | cons d ds ih =>
      simp only [List.foldl_cons]
      rw [ih]
      cases d with
      | funcDecl fd => exact visitFuncDecl_relationships env st fd f.filename f.content
      | genDeclType gd specs =>
          dsimp only
          induction specs generalizing st with
          | nil => rfl
          | cons ts tss ihs =>
              simp only [List.foldl_cons]
              rw [ihs]
              exact visitTypeSpec_relationships env st ts gd f.filename f.content

theorem pass1_relationships (env : AnalyzerEnv) (files : List RawFile) (st : AnalyzerState) :
    (files.foldl (fun st f => collectNodes env st f) st).Relationships = st.Relationships := by
  induction files generalizing st with
  | nil => rfl
  | cons f fs ih =>
      simp only [List.foldl_cons]
      rw [ih, collectNodes_relationships]

theorem visitTypeSpec_ids (env : AnalyzerEnv) (st : AnalyzerState) (ts : TypeSpec)
    (gd : Option CommentGroup) (fp ct : GoStr) :
    (visitTypeSpec env st ts gd fp ct).CollectedNodeIDs =
      if ts.shape = .otherType then st.CollectedNodeIDs
      else getComponentIDForFile env fp ts.name [] :: st.CollectedNodeIDs := by
  simp only [visitTypeSpec]
  split <;> simp_all

theorem visitFuncDecl_ids (env : AnalyzerEnv) (st : AnalyzerState) (fd : FuncDecl)
    (fp ct : GoStr) :
    (visitFuncDecl env st fd fp ct).CollectedNodeIDs =
      funcComponentID env fd fp :: st.CollectedNodeIDs := rfl

theorem mem_collectNodes_ids (env : AnalyzerEnv) (st : AnalyzerState) (f : RawFile)
    (i : GoStr) :
    i ∈ (collectNodes env st f).CollectedNodeIDs ↔
      i ∈ declaredIDs env f ∨ i ∈ st.CollectedNodeIDs := by
  simp only [collectNodes, declaredIDs]
  induction f.decls generalizing st with
  | nil => simp
  | cons d ds ih =>
      simp only [List.foldl_cons, List.flatMap_cons, List.mem_append]
      rw [ih]
      cases d with
      | funcDecl fd =>
          dsimp only
          rw [visitFuncDecl_ids]
          simp only [List.mem_cons, List.mem_singleton]
          tauto
      | genDeclType gd specs =>
          dsimp only
          have hspec : ∀ st : AnalyzerState,
              i ∈ (specs.foldl (fun st ts => visitTypeSpec env st ts gd f.filename f.content)
                st).CollectedNodeIDs ↔
              i ∈ specs.filterMap (fun ts =>
                if ts.shape = .otherType then none
                else some (getComponentIDForFile env f.filename ts.name [])) ∨
              i ∈ st.CollectedNodeIDs := by
            intro st
            induction specs generalizing st with
            | nil => simp
            | cons ts tss ihs =>
                simp only [List.foldl_cons]
                rw [ihs]
                rw [visitTypeSpec_ids]
                by_cases hsh : ts.shape = .otherType
                · simp only [hsh, if_pos rfl, List.filterMap_cons, ite_true]
                  try tauto
                · rw [if_neg hsh]
                  have : (List.filterMap (fun ts =>
                      if ts.shape = TypeShape.otherType then none
                      else some (getComponentIDForFile env f.filename ts.name [])) (ts :: tss)) =
                      getComponentIDForFile env f.filename ts.name [] ::
                      List.filterMap (fun ts =>
                        if ts.shape = TypeShape.otherType then none
                        else some (getComponentIDForFile env f.filename ts.name [])) tss := by
                    simp only [List.filterMap_cons, if_neg hsh]
                  rw [this]
                  simp only [List.mem_cons]
                  tauto
          rw [hspec]
          tauto

theorem mem_pass1_ids (env : AnalyzerEnv) (files : List RawFile) (st : AnalyzerState)
    (i : GoStr) :
    i ∈ (files.foldl (fun st f => collectNodes env st f) st).CollectedNodeIDs ↔
      (∃ f ∈ files, i ∈ declaredIDs env f) ∨ i ∈ st.CollectedNodeIDs := by
  induction files generalizing st with
  | nil => simp
  | cons f fs ih =>
      simp only [List.foldl_cons]
      rw [ih, mem_collectNodes_ids]
      simp only [List.mem_cons]
      constructor
      · rintro (⟨g, hg, hi⟩ | (hf | hst))
        · exact Or.inl ⟨g, Or.inr hg, hi⟩
        · exact Or.inl ⟨f, Or.inl rfl, hf⟩
        · exact Or.inr hst
      · rintro (⟨g, (rfl | hg), hi⟩ | hst)
        · exact Or.inr (Or.inl hi)
        · exact Or.inl ⟨g, hg, hi⟩
        · exact Or.inr (Or.inr hst)

/-! Node-level invariants and Analyze decomposition. -/

theorem mem_visitTypeSpec_nodes (env : AnalyzerEnv) (st : AnalyzerState) (ts : TypeSpec)
    (gd : Option CommentGroup) (fp ct : GoStr) (n : Node)
    (h : n ∈ (visitTypeSpec env st ts gd fp ct).Nodes) :
    n ∈ st.Nodes ∨
      (n.FilePath = fp ∧ getComponentIDForFile env n.FilePath n.Name n.ClassName = n.ID) := by
  by_cases hsh : ts.shape = .otherType
  · simp only [visitTypeSpec, if_pos hsh] at h
    exact Or.inl h
  · simp only [visitTypeSpec, if_neg hsh, List.mem_append, List.mem_singleton] at h
    rcases h with h | rfl
    · exact Or.inl h
    · exact Or.inr ⟨rfl, rfl⟩

theorem mem_visitFuncDecl_nodes (env : AnalyzerEnv) (st : AnalyzerState) (fd : FuncDecl)
    (fp ct : GoStr) (n : Node)
    (h : n ∈ (visitFuncDecl env st fd fp ct).Nodes) :
    n ∈ st.Nodes ∨
      (n.FilePath = fp ∧ getComponentIDForFile env n.FilePath n.Name n.ClassName = n.ID) := by
  simp only [visitFuncDecl, List.mem_append, List.mem_singleton] at h
  rcases h with h | rfl
  · exact Or.inl h
  · refine Or.inr ⟨rfl, ?_⟩
    cases hr : fd.recv with
    | none => simp [funcComponentID, hr]
    | some fields => simp [funcComponentID, hr]

theorem mem_collectNodes_nodes (env : AnalyzerEnv) (st : AnalyzerState) (f : RawFile)
    (n : Node) (h : n ∈ (collectNodes env st f).Nodes) :
    n ∈ st.Nodes ∨
      (n.FilePath = f.filename ∧
        getComponentIDForFile env n.FilePath n.Name n.ClassName = n.ID) := by
  rw [collectNodes] at h
  generalize hds : f.decls = ds at h
  clear hds
  induction ds generalizing st with
  | nil => exact Or.inl h
  | cons d ds ih =>
      rw [List.foldl_cons] at h
      rcases ih _ h with hmem | hprop
      · cases d with
        | funcDecl fd =>
            exact mem_visitFuncDecl_nodes env st fd f.filename f.content n hmem
        | genDeclType gd specs =>
            dsimp only at hmem
            clear ih h
            induction specs generalizing st with
            | nil => exact Or.inl hmem
            | cons ts tss ihs =>
                rw [List.foldl_cons] at hmem
                rcases ihs _ hmem with hmem2 | hprop2
                · exact mem_visitTypeSpec_nodes env st ts gd f.filename f.content n hmem2
                · exact Or.inr hprop2
      · exact Or.inr hprop

theorem mem_pass1_nodes (env : AnalyzerEnv) (files : List RawFile) (st : AnalyzerState)
    (n : Node) (h : n ∈ (files.foldl (fun st f => collectNodes env st f) st).Nodes) :
    n ∈ st.Nodes ∨
      (∃ f ∈ files, n.FilePath = f.filename ∧
        getComponentIDForFile env n.FilePath n.Name n.ClassName = n.ID) := by
  induction files generalizing st with
  | nil => exact Or.inl h
  | cons f fs ih =>
      rw [List.foldl_cons] at h
      rcases ih _ h with hmem | ⟨g, hg, hprop⟩
      · rcases mem_collectNodes_nodes env st f n hmem with hmem2 | hprop2
        · exact Or.inl hmem2
        · exact Or.inr ⟨f, List.mem_cons_self f fs, hprop2⟩
      · exact Or.inr ⟨g, List.mem_cons_of_mem f hg, hprop⟩

/-! Analyze decomposed into the two passes. -/

theorem Analyze_eq (env : AnalyzerEnv) (raw : List RawFile) :
    Analyze env raw =
      (buildFileInfos env raw).foldl (fun st f => collectCalls env st f)
        ((buildFileInfos env raw).foldl (fun st f => collectNodes env st f) initState) := rfl

theorem Analyze_ids (env : AnalyzerEnv) (raw : List RawFile) :
    (Analyze env raw).CollectedNodeIDs =
      ((buildFileInfos env raw).foldl (fun st f => collectNodes env st f)
        initState).CollectedNodeIDs := by
  rw [Analyze_eq, pass2_eq]

theorem Analyze_nodes (env : AnalyzerEnv) (raw : List RawFile) :
    (Analyze env raw).Nodes =
      ((buildFileInfos env raw).foldl (fun st f => collectNodes env st f) initState).Nodes := by
  rw [Analyze_eq, pass2_eq]

theorem Analyze_relationships (env : AnalyzerEnv) (raw : List RawFile) :
    (Analyze env raw).Relationships =
      (buildFileInfos env raw).flatMap
        (fileCallRels env (Analyze env raw).CollectedNodeIDs) := by
  conv_lhs => rw [Analyze_eq, pass2_eq]
  rw [Analyze_ids, pass1_relationships]
  simp [initState]

/-! Identifier facts. -/

theorem getComponentIDForFile_ne_nil (env : AnalyzerEnv) (fp n r : GoStr) :
    getComponentIDForFile env fp n r ≠ [] := by
  unfold getComponentIDForFile
  split <;> simp

theorem dot_mem_getComponentIDForFile (env : AnalyzerEnv) (fp n r : GoStr) :
    '.' ∈ getComponentIDForFile env fp n r := by
  unfold getComponentIDForFile
  split <;> simp

theorem dot_mem_declaredIDs (env : AnalyzerEnv) (f : RawFile) (i : GoStr)
    (h : i ∈ declaredIDs env f) : '.' ∈ i := by
  rw [declaredIDs, List.mem_flatMap] at h
  obtain ⟨d, _, hd⟩ := h
  cases d with
  | genDeclType gd specs =>
      simp only [List.mem_filterMap] at hd
      obtain ⟨ts, _, hts⟩ := hd
      by_cases hsh : ts.shape = .otherType
      · simp [hsh] at hts
      · rw [if_neg hsh] at hts
        cases hts
        exact dot_mem_getComponentIDForFile env f.filename ts.name []
  | funcDecl fd =>
      simp only [List.mem_singleton] at hd
      cases hd
      unfold funcComponentID
      split <;> exact dot_mem_getComponentIDForFile env f.filename fd.name _

theorem builtin_no_dot (nm : GoStr) (h : isBuiltin nm = true) : '.' ∉ nm := by
  rw [isBuiltin, Bool.or_eq_true, Bool.or_eq_true] at h
  have hmem : nm ∈ builtinFuncs ∨ nm ∈ builtinTypes ∨ nm ∈ builtinConsts := by
    rcases h with (h | h) | h
    · exact Or.inl (List.elem_iff.mp h)
    · exact Or.inr (Or.inl (List.elem_iff.mp h))
    · exact Or.inr (Or.inr (List.elem_iff.mp h))
  rcases hmem with h | h | h <;> (fin_cases h <;> decide)


/-! Claim C1. -/

/-- C1: round-trip consistency.  For every DeclaredSymbol node appended to
the output during an analysis run, applying the identifier scheme to the
node's own stored fields reproduces its id:
getComponentIDForFile(node.FilePath, node.Name, node.ClassName) equals
node.ID (ClassName being empty for free functions and type declarations). -/
theorem C1_roundtrip_id (env : AnalyzerEnv) (raw : List RawFile) (n : Node)
    (h : n ∈ (Analyze env raw).Nodes) :
    getComponentIDForFile env n.FilePath n.Name n.ClassName = n.ID := by
  rw [Analyze_nodes] at h
  rcases mem_pass1_nodes env _ initState n h with hmem | ⟨f, _, _, hprop⟩
  · simp [initState] at hmem
  · exact hprop

/-- Default node used to state closed instances. -/
theorem C1_roundtrip_id_witness :
    ((Analyze envW rawLocal).Nodes.getD 0
        ⟨[], [], [], [], [], [], [], 0, 0, false, [], [], [], [], [], [], []⟩) ∈
      (Analyze envW rawLocal).Nodes ∧
    getComponentIDForFile envW
        ((Analyze envW rawLocal).Nodes.getD 0
          ⟨[], [], [], [], [], [], [], 0, 0, false, [], [], [], [], [], [], []⟩).FilePath
        ((Analyze envW rawLocal).Nodes.getD 0
          ⟨[], [], [], [], [], [], [], 0, 0, false, [], [], [], [], [], [], []⟩).Name
        ((Analyze envW rawLocal).Nodes.getD 0
          ⟨[], [], [], [], [], [], [], 0, 0, false, [], [], [], [], [], [], []⟩).ClassName =
      ((Analyze envW rawLocal).Nodes.getD 0
        ⟨[], [], [], [], [], [], [], 0, 0, false, [], [], [], [], [], [], []⟩).ID :=
  ⟨by decide, C1_roundtrip_id envW rawLocal _ (by decide)⟩

/-! Claim C8. -/

/-- C8: span-extraction safety.  Whenever the computed start or end offset
falls outside the bounds of the buffered file content (start negative,
end past the buffer, or start greater than end), the guarded span
extraction used by visitTypeSpec and visitFuncDecl yields the empty
string; the content buffer is sliced only under the guard, so no error is
raised. -/
theorem C8_span_safety (content : GoStr) (s e : Int)
    (h : s < 0 ∨ (content.length : Int) < e ∨ e < s) :
    extractSpan content s e = [] := by
  rw [extractSpan, if_neg]
  rintro ⟨h1, h2, h3⟩
  rcases h with h | h | h <;> omega

theorem C8_span_safety_witness : extractSpan (gs "ab") (-1) 1 = [] :=
  C8_span_safety (gs "ab") (-1) 1 (Or.inl (by decide))

/-! Claim C2. -/

/-- C2 counterexample: the claim fails on paths containing a rune whose
code point is 47 modulo 256 without being the separator.  On the path
consisting of the runes a, 303, b the implementation replaces the middle
rune (low byte 47) by a dot, so the produced identifier differs from the
spec formula, which replaces path separators only. -/
theorem C2_counterexample :
    getComponentIDForFile envId ['a', Char.ofNat 303, 'b'] (gs "n") [] ≠
      identifierForSpec envId ['a', Char.ofNat 303, 'b'] (gs "n") [] := by decide

/-- C2 amended: for every file path whose relative path consists of runes
with code points below 256 (in particular every ASCII path), the produced
identifier equals the spec formula: relative path, extension stripped,
every path separator replaced by a dot, then the dotted enclosing type
and symbol name.  (In general the implementation replaces every rune
whose low byte is the separator byte, as the counterexample shows.) -/
theorem C2_identifier_scheme (env : AnalyzerEnv) (filePath symbolName enclosingTypeName : GoStr)
    (h : ∀ c ∈ env.rel filePath, c.toNat < 256) :
    getComponentIDForFile env filePath symbolName enclosingTypeName =
      identifierForSpec env filePath symbolName enclosingTypeName := by
  unfold getComponentIDForFile identifierForSpec specModulePath
  have hmap :
      ((env.rel filePath).take ((env.rel filePath).length - (goExt (env.rel filePath)).length)).map
          (fun c => if isSepByte c then '.' else c) =
        ((env.rel filePath).take ((env.rel filePath).length - (goExt (env.rel filePath)).length)).map
          (fun c => if c = '/' then '.' else c) := by
    apply List.map_congr_left
    intro c hc
    have hlt : c.toNat < 256 := h c (List.mem_of_mem_take hc)
    by_cases hcs : c = '/'
    · subst hcs
      rfl
    · have hsep : isSepByte c = false := by
        rw [isSepByte]
        simp only [beq_eq_false_iff_ne, ne_eq]
        rw [Nat.mod_eq_of_lt hlt]
        intro h47
        apply hcs
        have := Char.ofNat_toNat c
        rw [h47] at this
        exact this.symm
      rw [hsep, if_neg hcs]
      rfl
  dsimp only
  rw [hmap]

theorem C2_identifier_scheme_witness :
    (∀ c ∈ envW.rel (gs "/r/a/b.go"), c.toNat < 256) ∧
    getComponentIDForFile envW (gs "/r/a/b.go") (gs "d") (gs "c") =
      identifierForSpec envW (gs "/r/a/b.go") (gs "d") (gs "c") :=
  ⟨by decide, C2_identifier_scheme envW (gs "/r/a/b.go") (gs "d") (gs "c") (by decide)⟩

/-! Claim C9. -/

/-- C9 counterexample: two distinct declarations — method d on receiver
type c in file /r/a/b.go and free function d in file /r/a/b/c.go — are
both appended with the same id a.b.c.d, so identifier uniqueness fails
across files: distinct (file, enclosingType, name) triples do not imply
distinct ids. -/
theorem C9_counterexample :
    (Analyze envW rawC9).Nodes.map (fun n => n.ID) = [gs "a.b.c.d", gs "a.b.c.d"] ∧
    (Analyze envW rawC9).Nodes.map (fun n => n.FilePath) =
      [gs "/r/a/b.go", gs "/r/a/b/c.go"] ∧
    (Analyze envW rawC9).Nodes.map (fun n => (n.Name, n.ClassName)) =
      [(gs "d", gs "c"), (gs "d", [])] := by decide

/-- C9 amended: identifier uniqueness holds within a single file — for
declarations in the same file whose names and receiver-type names are
free of dots (as Go identifiers are), distinct (name, enclosingType)
pairs receive distinct ids; across files the path-derived module prefixes
can coincide and ids may collide, as the counterexample shows. -/
theorem C9_id_injective_per_file (env : AnalyzerEnv) (fp n₁ c₁ n₂ c₂ : GoStr)
    (hn₁ : '.' ∉ n₁) (hc₁ : '.' ∉ c₁) (hn₂ : '.' ∉ n₂) (hc₂ : '.' ∉ c₂)
    (heq : getComponentIDForFile env fp n₁ c₁ = getComponentIDForFile env fp n₂ c₂) :
    n₁ = n₂ ∧ c₁ = c₂ := by
  unfold getComponentIDForFile at heq
  by_cases h1 : c₁ = [] <;> by_cases h2 : c₂ = [] <;>
    simp only [h1, h2, ne_eq, not_true_eq_false, not_false_eq_true, if_pos, if_neg,
      ite_true, ite_false, if_true, if_false] at heq
  · -- both enclosing types empty
    have := List.append_cancel_left heq
    exact ⟨List.cons.inj this |>.2, h1.trans h2.symm⟩
  · -- c₁ empty, c₂ not: n₁ would contain a dot
    have := List.append_cancel_left heq
    have hdot : '.' ∈ n₁ := by
      have hn := List.cons.inj this |>.2
      rw [hn]
      exact List.mem_append_right c₂ (List.mem_cons_self '.' n₂)
    exact absurd hdot hn₁
  · -- c₂ empty, c₁ not: n₂ would contain a dot
    have := List.append_cancel_left heq
    have hdot : '.' ∈ n₂ := by
      have hn := (List.cons.inj this |>.2).symm
      rw [hn]
      exact List.mem_append_right c₁ (List.mem_cons_self '.' n₁)
    exact absurd hdot hn₂
  · -- both non-empty: compare up to the first dot
    have hmid := List.cons.inj (List.append_cancel_left heq) |>.2
    have htw : ∀ (c n : GoStr), '.' ∉ c →
        (c ++ '.' :: n).takeWhile (fun x => !(x == '.')) = c := by
      intro c n hc
      rw [List.takeWhile_append]
      have hself : c.takeWhile (fun x => !(x == '.')) = c :=
        List.takeWhile_eq_self_iff.mpr (by
          intro x hx
          simp only [Bool.not_eq_true']
          exact beq_eq_false_iff_ne.mpr (fun hxe => hc (hxe ▸ hx)))
      rw [hself, if_pos rfl]
      simp
    have hcc : c₁ = c₂ := by
      have t1 := htw c₁ n₁ hc₁
      have t2 := htw c₂ n₂ hc₂
      rw [hmid] at t1
      rw [t2] at t1
      exact t1.symm
    subst hcc
    have := List.append_cancel_left hmid
    exact ⟨List.cons.inj this |>.2, rfl⟩

theorem C9_id_injective_per_file_witness :
    ('.' ∉ gs "A" ∧ '.' ∉ gs "T" ∧ '.' ∉ gs "B") ∧
    (getComponentIDForFile envW (gs "/r/m.go") (gs "A") (gs "T") =
        getComponentIDForFile envW (gs "/r/m.go") (gs "A") (gs "T") →
      gs "A" = gs "A" ∧ gs "T" = gs "T") :=
  ⟨⟨by decide, by decide, by decide⟩,
    fun h => C9_id_injective_per_file envW (gs "/r/m.go") (gs "A") (gs "T") (gs "A") (gs "T")
      (by decide) (by decide) (by decide) (by decide) h⟩

/-! Claim C10. -/

theorem buildFileInfos_go_filter (env : AnalyzerEnv) (raw : List RawFile) :
    ∀ acc : List RawFile,
      raw.foldl
        (fun acc f =>
          if f.filename = [] ∨ isTestFile f.filename then acc
          else if ¬ isPathInRepo env f.filename then acc
          else if acc.any (fun g => g.filename == f.filename) then acc
          else acc ++ [f]) acc =
      (raw.filter (fun f => !(isTestFile f.filename))).foldl
        (fun acc f =>
          if f.filename = [] ∨ isTestFile f.filename then acc
          else if ¬ isPathInRepo env f.filename then acc
          else if acc.any (fun g => g.filename == f.filename) then acc
          else acc ++ [f]) acc := by
  induction raw with
  | nil => intro acc; rfl
  | cons f fs ih =>
      intro acc
      by_cases hT : isTestFile f.filename
      · rw [List.foldl_cons, List.filter_cons_of_neg (by simp [hT]), if_pos (Or.inr hT)]
        exact ih acc
      · rw [List.filter_cons_of_pos (by simp [hT]), List.foldl_cons, List.foldl_cons]
        exact ih _

theorem buildFileInfos_filter (env : AnalyzerEnv) (raw : List RawFile) :
    buildFileInfos env raw =
      buildFileInfos env (raw.filter (fun f => !(isTestFile f.filename))) :=
  buildFileInfos_go_filter env raw []

theorem buildFileInfos_go_not_test (env : AnalyzerEnv) (raw : List RawFile) :
    ∀ acc : List RawFile, (∀ g ∈ acc, isTestFile g.filename = false) →
      ∀ g ∈ raw.foldl
        (fun acc f =>
          if f.filename = [] ∨ isTestFile f.filename then acc
          else if ¬ isPathInRepo env f.filename then acc
          else if acc.any (fun g => g.filename == f.filename) then acc
          else acc ++ [f]) acc, isTestFile g.filename = false := by
  induction raw with
  | nil => intro acc hacc; exact hacc
  | cons f fs ih =>
      intro acc hacc
      rw [List.foldl_cons]
      apply ih
      by_cases h1 : f.filename = [] ∨ isTestFile f.filename
      · rw [if_pos h1]; exact hacc
      · rw [if_neg h1]
        by_cases h2 : ¬ isPathInRepo env f.filename
        · rw [if_pos h2]; exact hacc
        · rw [if_neg h2]
          by_cases h3 : acc.any (fun x => x.filename == f.filename)
          · rw [if_pos h3]; exact hacc
          · rw [if_neg h3]
            intro g hg
            rcases List.mem_append.mp hg with hm | hm
            · exact hacc g hm
            · rcases List.mem_singleton.mp hm with rfl
              rcases not_or.mp h1 with ⟨_, ht⟩
              exact Bool.not_eq_true _ ▸ Bool.of_not_eq_true ht

theorem mem_buildFileInfos_not_test (env : AnalyzerEnv) (raw : List RawFile)
    (f : RawFile) (hf : f ∈ buildFileInfos env raw) : isTestFile f.filename = false := by
  rw [buildFileInfos] at hf
  exact buildFileInfos_go_not_test env raw [] (by intro g hg; simp at hg) f hf

/-- C10: test-file exclusion.  Files whose path ends in "_test.go" are
skipped when fileInfos is built, before either pass: building the file
set from the input with test files pre-removed gives the same result,
every analyzed file is a non-test file, every node comes from a non-test
file, and every collected identifier is declared by some analyzed
(non-test) file — so no node, relationship or collected identifier
originates from a test file. -/
theorem C10_testfile_exclusion (env : AnalyzerEnv) (raw : List RawFile) :
    buildFileInfos env raw =
      buildFileInfos env (raw.filter (fun f => !(isTestFile f.filename))) ∧
    (∀ f ∈ buildFileInfos env raw, isTestFile f.filename = false) ∧
    (∀ n ∈ (Analyze env raw).Nodes, isTestFile n.FilePath = false) ∧
    (∀ i ∈ (Analyze env raw).CollectedNodeIDs,
      ∃ f ∈ buildFileInfos env raw, i ∈ declaredIDs env f) := by
  refine ⟨buildFileInfos_filter env raw, mem_buildFileInfos_not_test env raw, ?_, ?_⟩
  · intro n hn
    rw [Analyze_nodes] at hn
    rcases mem_pass1_nodes env _ initState n hn with hmem | ⟨f, hf, hfp, _⟩
    · simp [initState] at hmem
    · rw [hfp]
      exact mem_buildFileInfos_not_test env raw f hf
  · intro i hi
    rw [Analyze_ids] at hi
    rcases (mem_pass1_ids env _ initState i).mp hi with ⟨f, hf, hd⟩ | hmem
    · exact ⟨f, hf, hd⟩
    · simp [initState] at hmem

theorem C10_testfile_exclusion_witness :
    (⟨gs "/r/b.go", [], [.funcDecl fdFreeD], false⟩ : RawFile) ∈ buildFileInfos envW rawTests ∧
    isTestFile (gs "/r/b.go") = false := by
  have h : buildFileInfos envW rawTests =
      [⟨gs "/r/b.go", [], [.funcDecl fdFreeD], false⟩] := rfl
  refine ⟨h ▸ List.mem_singleton.mpr rfl, ?_⟩
  exact (C10_testfile_exclusion envW rawTests).2.1 _ (h ▸ List.mem_singleton.mpr rfl)

/-! Claim C6. -/

/-- C6: heuristic selector rule.  For a selector call X.Sel (X an
identifier with the non-empty name Go guarantees) handled by the
heuristic path inside a method body, if X equals the enclosing method's
receiver-parameter name and the receiver type is non-empty then the
emitted Callee is the identifier computed from the caller's file, the
caller's receiver type and Sel; otherwise the Callee is the verbatim
string X.Sel; in both cases IsResolved is exactly membership of the
Callee in the collected identifier set. -/
theorem C6_heuristic_selector (env : AnalyzerEnv) (st : AnalyzerState) (fd : FuncDecl)
    (fp : GoStr) (ht : Bool) (xname selName : GoStr) (xuse : UseFact)
    (selection : Option SelectionFact) (selUse : UseFact) (line : Int)
    (hx : xname ≠ [])
    (hheur : ht = false ∨
      resolveCallWithTypes env st.CollectedNodeIDs
        ⟨.selectorFun (.xIdent xname xuse) selName selection selUse, line⟩ = none) :
    processCall env st (funcComponentID env fd fp) (funcRecvName fd) (funcRecvType fd)
        ⟨.selectorFun (.xIdent xname xuse) selName selection selUse, line⟩ ht fp =
      { st with Relationships := st.Relationships ++
          [⟨funcComponentID env fd fp,
            (if xname = funcRecvName fd ∧ funcRecvType fd ≠ [] then
              getComponentIDForFile env fp selName (funcRecvType fd)
            else xname ++ '.' :: selName),
            line,
            decide ((if xname = funcRecvName fd ∧ funcRecvType fd ≠ [] then
              getComponentIDForFile env fp selName (funcRecvType fd)
            else xname ++ '.' :: selName) ∈ st.CollectedNodeIDs),
            gs "calls"⟩] } := by
  have hcond :
      (funcRecvName fd ≠ [] ∧ funcRecvType fd ≠ [] ∧ xname = funcRecvName fd) ↔
      (xname = funcRecvName fd ∧ funcRecvType fd ≠ []) := by
    constructor
    · rintro ⟨_, h2, h3⟩
      exact ⟨h3, h2⟩
    · rintro ⟨h1, h2⟩
      exact ⟨h1 ▸ hx, h2, h1⟩
  have hheu :
      processCallHeuristic env st (funcComponentID env fd fp) (funcRecvName fd)
        (funcRecvType fd) ⟨.selectorFun (.xIdent xname xuse) selName selection selUse, line⟩ fp =
      { st with Relationships := st.Relationships ++
          [⟨funcComponentID env fd fp,
            (if xname = funcRecvName fd ∧ funcRecvType fd ≠ [] then
              getComponentIDForFile env fp selName (funcRecvType fd)
            else xname ++ '.' :: selName),
            line,
            decide ((if xname = funcRecvName fd ∧ funcRecvType fd ≠ [] then
              getComponentIDForFile env fp selName (funcRecvType fd)
            else xname ++ '.' :: selName) ∈ st.CollectedNodeIDs),
            gs "calls"⟩] } := by
    unfold processCallHeuristic heuristicCallee
    dsimp only
    by_cases hc : xname = funcRecvName fd ∧ funcRecvType fd ≠ []
    · rw [if_pos (hcond.mpr hc)]
      rw [if_pos hc]
      rw [if_pos (getComponentIDForFile_ne_nil env fp selName (funcRecvType fd))]
    · rw [if_neg (fun h => hc (hcond.mp h)), if_neg hc]
      rw [if_pos (by
        intro habs
        exact hx (List.append_eq_nil.mp habs).1)]
  rcases hheur with rfl | hres
  · rw [processCall]
    simp only [Bool.false_eq_true, if_false]
    exact hheu
  · rw [processCall]
    cases ht
    · simp only [Bool.false_eq_true, if_false]
      exact hheu
    · simp only [if_true, hres]
      exact hheu

theorem C6_heuristic_selector_witness :
    processCall envW initState (funcComponentID envW fdMethA (gs "/r/m.go"))
        (funcRecvName fdMethA) (funcRecvType fdMethA)
        ⟨.selectorFun (.xIdent (gs "t") .otherUse) (gs "B") none .otherUse, 6⟩ false
        (gs "/r/m.go") =
      { initState with Relationships := initState.Relationships ++
          [⟨funcComponentID envW fdMethA (gs "/r/m.go"),
            (if gs "t" = funcRecvName fdMethA ∧ funcRecvType fdMethA ≠ [] then
              getComponentIDForFile envW (gs "/r/m.go") (gs "B") (funcRecvType fdMethA)
            else gs "t" ++ '.' :: gs "B"),
            6,
            decide ((if gs "t" = funcRecvName fdMethA ∧ funcRecvType fdMethA ≠ [] then
              getComponentIDForFile envW (gs "/r/m.go") (gs "B") (funcRecvType fdMethA)
            else gs "t" ++ '.' :: gs "B") ∈ initState.CollectedNodeIDs),
            gs "calls"⟩] } :=
  C6_heuristic_selector envW initState fdMethA (gs "/r/m.go") false (gs "t") (gs "B")
    .otherUse none .otherUse 6 (by decide) (Or.inl rfl)

/-! Resolution facts used by claims C3, C4 and C5. -/

theorem Analyze_ids_dot (env : AnalyzerEnv) (raw : List RawFile) (i : GoStr)
    (h : i ∈ (Analyze env raw).CollectedNodeIDs) : '.' ∈ i := by
  rw [Analyze_ids] at h
  rcases (mem_pass1_ids env _ initState i).mp h with ⟨f, _, hd⟩ | hmem
  · exact dot_mem_declaredIDs env f i hd
  · simp [initState] at hmem

theorem builtin_ne_nil (nm : GoStr) (h : isBuiltin nm = true) : nm ≠ [] := by
  rw [isBuiltin, Bool.or_eq_true, Bool.or_eq_true] at h
  have hmem : nm ∈ builtinFuncs ∨ nm ∈ builtinTypes ∨ nm ∈ builtinConsts := by
    rcases h with (h | h) | h
    · exact Or.inl (List.elem_iff.mp h)
    · exact Or.inr (Or.inl (List.elem_iff.mp h))
    · exact Or.inr (Or.inr (List.elem_iff.mp h))
  rcases hmem with h | h | h <;> (fin_cases h <;> decide)

theorem resolveCallWithTypes_resolved_mem (env : AnalyzerEnv) (ids : List GoStr)
    (c : CallExpr) (q : GoStr)
    (h : resolveCallWithTypes env ids c = some (q, true)) : q ∈ ids := by
  obtain ⟨cf, line⟩ := c
  cases cf with
  | identFun nm u =>
      cases u with
      | funcUse df fn pk =>
          rw [resolveCallWithTypes] at h
          dsimp only at h
          by_cases hin : getComponentIDForPos env df fn [] ≠ [] ∧ isPosInRepo env df
          · rw [if_pos hin] at h
            simp only [Option.some.injEq, Prod.mk.injEq] at h
            rcases h with ⟨rfl, hdec⟩
            exact of_decide_eq_true hdec
          · rw [if_neg hin] at h
            cases pk with
            | some p => simp at h
            | none => simp at h
      | builtinUse =>
          rw [resolveCallWithTypes] at h
          simp at h
      | pkgNameUse => rw [resolveCallWithTypes] at h; simp at h
      | otherUse => rw [resolveCallWithTypes] at h; simp at h
  | selectorFun x sn selection selUse =>
      cases selection with
      | some sel =>
          cases sel with
          | funcSel df fn rts rq =>
              rw [resolveCallWithTypes] at h
              dsimp only at h
              by_cases hin : getComponentIDForPos env df fn rts ≠ [] ∧ isPosInRepo env df
              · rw [if_pos hin] at h
                simp only [Option.some.injEq, Prod.mk.injEq] at h
                rcases h with ⟨rfl, hdec⟩
                exact of_decide_eq_true hdec
              · rw [if_neg hin] at h
                simp at h
          | nonFuncSel => rw [resolveCallWithTypes] at h; simp at h
      | none =>
          cases x with
          | xIdent xn xu =>
              cases xu with
              | pkgNameUse =>
                  cases selUse with
                  | funcUse df fn pk =>
                      rw [resolveCallWithTypes] at h
                      dsimp only at h
                      by_cases hin : getComponentIDForPos env df fn [] ≠ [] ∧ isPosInRepo env df
                      · rw [if_pos hin] at h
                        simp only [Option.some.injEq, Prod.mk.injEq] at h
                        rcases h with ⟨rfl, hdec⟩
                        exact of_decide_eq_true hdec
                      · rw [if_neg hin] at h
                        simp at h
                  | builtinUse => rw [resolveCallWithTypes] at h; simp at h
                  | pkgNameUse => rw [resolveCallWithTypes] at h; simp at h
                  | otherUse => rw [resolveCallWithTypes] at h; simp at h
              | funcUse df fn pk => rw [resolveCallWithTypes] at h; simp at h
              | builtinUse => rw [resolveCallWithTypes] at h; simp at h
              | otherUse => rw [resolveCallWithTypes] at h; simp at h
          | xOther => rw [resolveCallWithTypes] at h; simp at h
  | otherFun => rw [resolveCallWithTypes] at h; simp at h

theorem perCallRels_resolved_mem (env : AnalyzerEnv) (ids : List GoStr)
    (cid rn rt : GoStr) (c : CallExpr) (ht : Bool) (fp : GoStr) (r : CallRelationship)
    (hr : r ∈ perCallRels env ids cid rn rt c ht fp) (hres : r.IsResolved = true) :
    r.Callee ∈ ids := by
  have hheu : ∀ (hr : r ∈ perCallHeuristicRels env ids cid rn rt c fp), r.Callee ∈ ids := by
    intro hr
    unfold perCallHeuristicRels at hr
    by_cases hn : heuristicCallee env rn rt c fp ≠ []
    · rw [if_pos hn] at hr
      rcases List.mem_singleton.mp hr with rfl
      simp only at hres
      exact of_decide_eq_true hres
    · rw [if_neg hn] at hr
      simp at hr
  unfold perCallRels at hr
  cases ht with
  | false =>
      simp only [Bool.false_eq_true, if_false] at hr
      exact hheu hr
  | true =>
      simp only [if_true] at hr
      cases hres2 : resolveCallWithTypes env ids c with
      | none =>
          rw [hres2] at hr
          exact hheu hr
      | some pr =>
          obtain ⟨nm, res⟩ := pr
          rw [hres2] at hr
          dsimp only at hr
          by_cases hn : nm ≠ []
          · rw [if_pos hn] at hr
            rcases List.mem_singleton.mp hr with rfl
            simp only at hres
            subst hres
            exact resolveCallWithTypes_resolved_mem env ids c nm hres2
          · rw [if_neg hn] at hr
            simp at hr

/-! Claim C3. -/

/-- C3 counterexample: not every IsResolved flag is computed by membership
in the collected identifier set.  In a run containing the file fmt.go
(declaring Println, so "fmt.Println" is a collected id) and a
type-informed call to the external fmt.Println, the emitted relationship
carries IsResolved = false even though its Callee is a member of the
fully populated identifier set: external callees are assigned false
directly, without a membership test. -/
theorem C3_counterexample :
    (Analyze envW rawColl).Relationships.map (fun r => (r.Callee, r.IsResolved)) =
      [(gs "fmt.Println", false)] ∧
    gs "fmt.Println" ∈ (Analyze envW rawColl).CollectedNodeIDs := by decide

/-- C3 amended: within one Analyze invocation the node-collection pass
runs over every analyzed file before the call-resolution pass runs over
any file; the collection pass emits no relationship, the resolution pass
never writes the collected identifier set (nor the node list), and every
relationship that is emitted with IsResolved = true owes it to membership
of its Callee in the fully populated identifier set of the whole run —
external and builtin callees are assigned IsResolved = false directly,
without a membership test, as the counterexample shows. -/
theorem C3_two_pass_ordering (env : AnalyzerEnv) (raw : List RawFile) :
    Analyze env raw =
      (buildFileInfos env raw).foldl (fun st f => collectCalls env st f)
        ((buildFileInfos env raw).foldl (fun st f => collectNodes env st f) initState) ∧
    ((buildFileInfos env raw).foldl (fun st f => collectNodes env st f)
        initState).Relationships = [] ∧
    (Analyze env raw).CollectedNodeIDs =
      ((buildFileInfos env raw).foldl (fun st f => collectNodes env st f)
        initState).CollectedNodeIDs ∧
    (Analyze env raw).Nodes =
      ((buildFileInfos env raw).foldl (fun st f => collectNodes env st f) initState).Nodes ∧
    (∀ r ∈ (Analyze env raw).Relationships, r.IsResolved = true →
      r.Callee ∈ (Analyze env raw).CollectedNodeIDs) := by
  refine ⟨Analyze_eq env raw, ?_, Analyze_ids env raw, Analyze_nodes env raw, ?_⟩
  · rw [pass1_relationships]
    rfl
  · intro r hr hres
    rw [Analyze_relationships] at hr
    rw [List.mem_flatMap] at hr
    obtain ⟨f, _, hr⟩ := hr
    rw [fileCallRels, List.mem_flatMap] at hr
    obtain ⟨d, _, hr⟩ := hr
    cases d with
    | genDeclType gd specs => simp [declCallRels] at hr
    | funcDecl fd =>
        rw [declCallRels] at hr
        cases hb : fd.body with
        | none => rw [hb] at hr; simp at hr
        | some calls =>
            rw [hb] at hr
            rw [List.mem_flatMap] at hr
            obtain ⟨cc, _, hr⟩ := hr
            exact perCallRels_resolved_mem env _ _ _ _ cc _ _ r hr hres

theorem C3_two_pass_ordering_witness :
    (⟨gs "calls.Caller", gs "calls.Callee", 4, true, gs "calls"⟩ : CallRelationship) ∈
      (Analyze envW rawLocal).Relationships ∧
    (⟨gs "calls.Caller", gs "calls.Callee", 4, true, gs "calls"⟩ : CallRelationship).IsResolved
      = true ∧
    gs "calls.Callee" ∈ (Analyze envW rawLocal).CollectedNodeIDs :=
  ⟨by decide, by decide,
    (C3_two_pass_ordering envW rawLocal).2.2.2.2
      ⟨gs "calls.Caller", gs "calls.Callee", 4, true, gs "calls"⟩ (by decide) (by decide)⟩

/-! Claim C4. -/

/-- C4: local resolution on the heuristic path.  In a run where a file is
analyzed without type facts, a call expression whose callee is a bare
non-builtin identifier naming a free function declared in the same file
as the caller yields exactly one relationship for that call site, with
IsResolved = true and Callee equal to the declared function's id — the id
recomputed as if the name were declared with no enclosing type in the
caller's file. -/
theorem C4_local_resolution (env : AnalyzerEnv) (raw : List RawFile) (fi : RawFile)
    (fd : FuncDecl) (calls : List CallExpr) (c : CallExpr) (f : GoStr) (u : UseFact)
    (gd : FuncDecl)
    (hfi : fi ∈ buildFileInfos env raw) (hht : fi.hasTypes = false)
    (hfd : Decl.funcDecl fd ∈ fi.decls) (hb : fd.body = some calls) (hc : c ∈ calls)
    (hcf : c.calleeFun = .identFun f u) (hnb : isBuiltin f = false)
    (hgd : Decl.funcDecl gd ∈ fi.decls) (hgn : gd.name = f) (hgr : gd.recv = none) :
    perCallRels env (Analyze env raw).CollectedNodeIDs (funcComponentID env fd fi.filename)
        (funcRecvName fd) (funcRecvType fd) c false fi.filename =
      [⟨funcComponentID env fd fi.filename, getComponentIDForFile env fi.filename f [],
        c.line, true, gs "calls"⟩] ∧
    (⟨funcComponentID env fd fi.filename, getComponentIDForFile env fi.filename f [],
        c.line, true, gs "calls"⟩ : CallRelationship) ∈ (Analyze env raw).Relationships := by
  have hdecl : getComponentIDForFile env fi.filename f [] ∈ declaredIDs env fi := by
    rw [declaredIDs, List.mem_flatMap]
    refine ⟨.funcDecl gd, hgd, ?_⟩
    simp [funcComponentID, hgr, hgn]
  have hmemFull : getComponentIDForFile env fi.filename f [] ∈
      (Analyze env raw).CollectedNodeIDs := by
    rw [Analyze_ids]
    exact (mem_pass1_ids env _ initState _).mpr (Or.inl ⟨fi, hfi, hdecl⟩)
  have hper : perCallRels env (Analyze env raw).CollectedNodeIDs
      (funcComponentID env fd fi.filename) (funcRecvName fd) (funcRecvType fd) c false
      fi.filename =
      [⟨funcComponentID env fd fi.filename, getComponentIDForFile env fi.filename f [],
        c.line, true, gs "calls"⟩] := by
    rw [perCallRels]
    simp only [Bool.false_eq_true, if_false]
    rw [perCallHeuristicRels]
    have hcal : heuristicCallee env (funcRecvName fd) (funcRecvType fd) c fi.filename =
        getComponentIDForFile env fi.filename f [] := by
      rw [heuristicCallee, hcf]
      dsimp only
      rw [if_neg (by rw [hnb]; exact Bool.false_ne_true)]
    rw [hcal]
    rw [if_pos (getComponentIDForFile_ne_nil env fi.filename f [])]
    rw [decide_eq_true hmemFull]
  refine ⟨hper, ?_⟩
  rw [Analyze_relationships, List.mem_flatMap]
  refine ⟨fi, hfi, ?_⟩
  rw [fileCallRels, List.mem_flatMap]
  refine ⟨.funcDecl fd, hfd, ?_⟩
  rw [declCallRels, hb, hht]
  rw [List.mem_flatMap]
  refine ⟨c, hc, ?_⟩
  rw [hper]
  exact List.mem_singleton.mpr rfl

theorem C4_local_resolution_witness :
    perCallRels envW (Analyze envW rawLocal).CollectedNodeIDs
        (funcComponentID envW fdCaller (gs "/r/calls.go"))
        (funcRecvName fdCaller) (funcRecvType fdCaller) callLocalCallee false
        (gs "/r/calls.go") =
      [⟨funcComponentID envW fdCaller (gs "/r/calls.go"),
        getComponentIDForFile envW (gs "/r/calls.go") (gs "Callee") [],
        callLocalCallee.line, true, gs "calls"⟩] ∧
    (⟨funcComponentID envW fdCaller (gs "/r/calls.go"),
        getComponentIDForFile envW (gs "/r/calls.go") (gs "Callee") [],
        callLocalCallee.line, true, gs "calls"⟩ : CallRelationship) ∈
      (Analyze envW rawLocal).Relationships := by
  have hfi : (⟨gs "/r/calls.go", [], [.funcDecl fdCaller, .funcDecl fdCallee], false⟩ :
      RawFile) ∈ buildFileInfos envW rawLocal := by
    have h : buildFileInfos envW rawLocal =
        [⟨gs "/r/calls.go", [], [.funcDecl fdCaller, .funcDecl fdCallee], false⟩] := rfl
    rw [h]
    exact List.mem_singleton.mpr rfl
  exact C4_local_resolution envW rawLocal _ fdCaller [callLocalCallee] callLocalCallee
    (gs "Callee") .otherUse fdCallee hfi rfl
    (List.mem_cons_self _ _) rfl (List.mem_singleton.mpr rfl) rfl (by decide)
    (List.mem_cons_of_mem _ (List.mem_singleton.mpr rfl)) rfl rfl

/-! Claim C5. -/

/-- C5 counterexample: on the heuristic path a call to an external symbol
is not always unresolved.  In a run with no type facts containing the
file fmt.go (declaring Println) and a selector call to the external
fmt.Println, the emitted relationship carries IsResolved = true because
the verbatim name "fmt.Println" collides with a collected identifier,
although the callee's declaration lies outside the analyzed root. -/
theorem C5_counterexample :
    calleeFactsExternalOrBuiltin envW callSelPrintln = true ∧
    (Analyze envW rawHeur).Relationships.map (fun r => (r.Callee, r.IsResolved)) =
      [(gs "fmt.Println", true)] := by decide

/-- C5 amended: external-call non-resolution holds on the type-informed
path — whenever the type facts place the callee's declaration outside the
analyzed root (or mark it a builtin), every classification the
type-informed path returns carries resolved = false — and for builtin
bare-identifier calls on the heuristic path, whose bare name can never be
a collected id.  A heuristic-path call to an external symbol, however,
gets its flag from membership of the guessed name and can be marked
resolved, as the counterexample shows. -/
theorem C5_external_non_resolution :
    (∀ (env : AnalyzerEnv) (ids : List GoStr) (c : CallExpr) (q : GoStr) (b : Bool),
        calleeFactsExternalOrBuiltin env c = true →
        resolveCallWithTypes env ids c = some (q, b) → b = false) ∧
    (∀ (env : AnalyzerEnv) (raw : List RawFile) (cid rn rt fp : GoStr) (c : CallExpr)
        (f : GoStr) (u : UseFact),
        c.calleeFun = .identFun f u → isBuiltin f = true →
        perCallRels env (Analyze env raw).CollectedNodeIDs cid rn rt c false fp =
          [⟨cid, f, c.line, false, gs "calls"⟩]) := by
  constructor
  · intro env ids c q b hext hres
    obtain ⟨cf, line⟩ := c
    cases cf with
    | identFun nm u =>
        cases u with
        | funcUse df fn pk =>
            have hout : isPosInRepo env df = false := by
              simpa [calleeFactsExternalOrBuiltin] using hext
            rw [resolveCallWithTypes] at hres
            dsimp only at hres
            rw [if_neg (by simp [hout])] at hres
            cases pk with
            | some p =>
                simp only [Option.some.injEq, Prod.mk.injEq] at hres
                exact hres.2.symm
            | none =>
                simp only [Option.some.injEq, Prod.mk.injEq] at hres
                exact hres.2.symm
        | builtinUse =>
            rw [resolveCallWithTypes] at hres
            simp only [Option.some.injEq, Prod.mk.injEq] at hres
            exact hres.2.symm
        | pkgNameUse => simp [calleeFactsExternalOrBuiltin] at hext
        | otherUse => simp [calleeFactsExternalOrBuiltin] at hext
    | selectorFun x sn selection selUse =>
        cases selection with
        | some sel =>
            cases sel with
            | funcSel df fn rts rq =>
                have hout : isPosInRepo env df = false := by
                  simpa [calleeFactsExternalOrBuiltin] using hext
                rw [resolveCallWithTypes] at hres
                dsimp only at hres
                rw [if_neg (by simp [hout])] at hres
                simp only [Option.some.injEq, Prod.mk.injEq] at hres
                exact hres.2.symm
            | nonFuncSel => simp [calleeFactsExternalOrBuiltin] at hext
        | none =>
            cases x with
            | xIdent xn xu =>
                cases xu with
                | pkgNameUse =>
                    cases selUse with
                    | funcUse df fn pk =>
                        have hout : isPosInRepo env df = false := by
                          simpa [calleeFactsExternalOrBuiltin] using hext
                        rw [resolveCallWithTypes] at hres
                        dsimp only at hres
                        rw [if_neg (by simp [hout])] at hres
                        simp only [Option.some.injEq, Prod.mk.injEq] at hres
                        exact hres.2.symm
                    | builtinUse => simp [calleeFactsExternalOrBuiltin] at hext
                    | pkgNameUse => simp [calleeFactsExternalOrBuiltin] at hext
                    | otherUse => simp [calleeFactsExternalOrBuiltin] at hext
                | funcUse df fn pk => simp [calleeFactsExternalOrBuiltin] at hext
                | builtinUse => simp [calleeFactsExternalOrBuiltin] at hext
                | otherUse => simp [calleeFactsExternalOrBuiltin] at hext
            | xOther => simp [calleeFactsExternalOrBuiltin] at hext
    | otherFun => simp [calleeFactsExternalOrBuiltin] at hext
  · intro env raw cid rn rt fp c f u hcf hb
    rw [perCallRels]
    simp only [Bool.false_eq_true, if_false]
    rw [perCallHeuristicRels]
    have hcal : heuristicCallee env rn rt c fp = f := by
      rw [heuristicCallee, hcf]
      dsimp only
      rw [if_pos hb]
    rw [hcal]
    rw [if_pos (builtin_ne_nil f hb)]
    have hnm : decide (f ∈ (Analyze env raw).CollectedNodeIDs) = false := by
      apply decide_eq_false
      intro hmem
      exact absurd (Analyze_ids_dot env raw f hmem) (builtin_no_dot f hb)
    rw [hnm]

theorem C5_external_non_resolution_witness :
    (calleeFactsExternalOrBuiltin envW callExtPrintln = true ∧ (false : Bool) = false) ∧
    perCallRels envW (Analyze envW rawLocal).CollectedNodeIDs (gs "calls.Caller") [] []
        callLen false (gs "/r/calls.go") =
      [⟨gs "calls.Caller", gs "len", callLen.line, false, gs "calls"⟩] :=
  ⟨⟨by decide,
    C5_external_non_resolution.1 envW [] callExtPrintln (gs "fmt.Println") false
      (by decide) (by decide)⟩,
   C5_external_non_resolution.2 envW rawLocal (gs "calls.Caller") [] [] (gs "/r/calls.go")
     callLen (gs "len") .otherUse rfl (by decide)⟩

/-! Claim C7. -/

theorem splitLines_no_nl (t : GoStr) (h : ∀ ch ∈ t, ch ≠ '\n') : splitLines t = [t] := by
  induction t with
  | nil => rfl
  | cons c cs ih =>
      have hc : c ≠ '\n' := h c (List.mem_cons_self c cs)
      have hcs := ih (fun ch hch => h ch (List.mem_cons_of_mem c hch))
      rw [splitLines, hcs]
      simp only [if_neg hc]

theorem intercalate_line_pair (l : GoStr) :
    List.intercalate (gs "\n") [l, []] = l ++ ['\n'] := by
  simp [List.intercalate, List.intersperse, gs]

theorem commentGroupText_single_line (t : GoStr) (hnl : ∀ ch ∈ t, ch ≠ '\n')
    (hne : stripTrailingWS t ≠ []) :
    commentGroupText ['/' :: '/' :: ' ' :: t] = stripTrailingWS t ++ ['\n'] := by
  have hcl : commentLines ('/' :: '/' :: ' ' :: t) = [stripTrailingWS t] := by
    show (splitLines t).map stripTrailingWS = _
    rw [splitLines_no_nl t hnl]
    rfl
  unfold commentGroupText
  rw [List.map_cons, List.map_nil, hcl]
  have hfl : ([[stripTrailingWS t]] : List (List (List Char))).flatten = [stripTrailingWS t] := by
    simp
  rw [hfl]
  have hcol : collapseBlankLines [stripTrailingWS t] = [stripTrailingWS t] := by
    unfold collapseBlankLines
    simp [hne]
  simp only [hcol]
  rw [if_pos (by simpa using hne)]
  exact intercalate_line_pair (stripTrailingWS t)

/-- C7 counterexample: the documentation text attached to a node is not
the comment text with markers stripped and trimmed — go/ast comment
rendering appends a trailing newline.  For the type declaration preceded
by the single-line comment containing "D is d" the stored Docstring is
"D is d" followed by a newline, which differs from the trimmed text. -/
theorem C7_counterexample :
    (Analyze envW rawDoc).Nodes.map (fun n => (n.HasDocstring, n.Docstring)) =
      [(true, gs "D is d\n")] ∧
    gs "D is d\n" ≠ gs "D is d" := by decide

/-- C7 amended: a type declaration whose effective doc group is a single
line comment (marker and one leading space stripped, text free of
newlines, not blank after stripping trailing whitespace) produces a node
with HasDocstring = true, Docstring equal to the comment text with the
marker and leading space stripped, trailing whitespace removed and a
newline appended, and SourceCode extracted from the comment's source
offset (not the declaration keyword's offset) to the declaration's end
offset. -/
theorem C7_doc_attachment (env : AnalyzerEnv) (st : AnalyzerState) (ts : TypeSpec)
    (gd : Option CommentGroup) (fp content : GoStr) (d : CommentGroup) (t : GoStr)
    (hsh : ts.shape ≠ .otherType)
    (hd : effectiveDoc ts.tsDoc gd = some d)
    (hc : d.comments = ['/' :: '/' :: ' ' :: t])
    (hnl : ∀ ch ∈ t, ch ≠ '\n')
    (hne : stripTrailingWS t ≠ []) :
    (visitTypeSpec env st ts gd fp content).Nodes =
      st.Nodes ++
        [{ ID := getComponentIDForFile env fp ts.name []
           Name := ts.name
           ComponentType := gs "class"
           FilePath := fp
           RelativePath := env.rel fp
           DependsOn := []
           SourceCode := extractSpan content d.pos ts.span.endOff
           StartLine := ts.span.startLine
           EndLine := ts.span.endLine
           HasDocstring := true
           Docstring := stripTrailingWS t ++ ['\n']
           Parameters := []
           NodeType := if ts.shape = .interfaceType then gs "interface" else gs "struct"
           BaseClasses := []
           ClassName := []
           DisplayName :=
             (if ts.shape = .interfaceType then gs "interface" else gs "struct") ++
               ' ' :: ts.name
           ComponentID := getComponentIDForFile env fp ts.name [] }] := by
  unfold visitTypeSpec
  rw [if_neg hsh]
  dsimp only
  rw [hd]
  dsimp only
  rw [hc, commentGroupText_single_line t hnl hne]
  rfl

theorem C7_doc_attachment_witness :
    (visitTypeSpec envW initState tsD (some ⟨[gs "// D is d"], 0⟩) (gs "/r/t.go")
        (gs "// D is d\ntype D struct{}")).Nodes =
      initState.Nodes ++
        [{ ID := getComponentIDForFile envW (gs "/r/t.go") (gs "D") []
           Name := gs "D"
           ComponentType := gs "class"
           FilePath := gs "/r/t.go"
           RelativePath := envW.rel (gs "/r/t.go")
           DependsOn := []
           SourceCode := extractSpan (gs "// D is d\ntype D struct{}") 0 tsD.span.endOff
           StartLine := tsD.span.startLine
           EndLine := tsD.span.endLine
           HasDocstring := true
           Docstring := stripTrailingWS (gs "D is d") ++ ['\n']
           Parameters := []
           NodeType := if tsD.shape = .interfaceType then gs "interface" else gs "struct"
           BaseClasses := []
           ClassName := []
           DisplayName :=
             (if tsD.shape = .interfaceType then gs "interface" else gs "struct") ++
               ' ' :: gs "D"
           ComponentID := getComponentIDForFile envW (gs "/r/t.go") (gs "D") [] }] :=
  C7_doc_attachment envW initState tsD (some ⟨[gs "// D is d"], 0⟩) (gs "/r/t.go")
    (gs "// D is d\ntype D struct{}") ⟨[gs "// D is d"], 0⟩ (gs "D is d")
    (by decide) rfl (by decide) (by decide) (by decide)

end Codewiki
